import Mathlib

/-!
Verification development for the cloud-simulator repository: a shallow
embedding of the cost model, the VM manager, the event queue and the
scheduler preprocessing routines, with theorems settling the stated
properties of each component.

Python floats and datetimes are embedded as rationals (exact arithmetic);
Python sets of hashable values are embedded as finite sets or lists with
membership semantics; fallible code (assertions, type errors) returns
Except values.
-/

set_option maxHeartbeats 1000000

namespace CloudSim

/-- Python floor division a // b on floats, over ℚ. -/
def pyFloorDiv (a b : ℚ) : ℚ := ⌊a / b⌋

/-- Python modulo a % b on floats, over ℚ: a - b * floor(a / b). -/
def pyMod (a b : ℚ) : ℚ := a - b * ⌊a / b⌋

/-- A Python bool used in arithmetic (True = 1, False = 0). -/
def pyBool (p : Prop) [Decidable p] : ℚ := if p then 1 else 0

/-- VM type catalog entry, from simulator/vms/instance.py (VMType). -/
structure VMType where
  name : String
  cpu : ℚ
  memory : ℚ
  price : ℚ
  billing_period : ℚ
  io_bandwidth : ℚ
deriving DecidableEq

/-- Workflow file, from simulator/workflows/file.py; equality on (name, size). -/
structure WFile where
  name : String
  size : ℤ
deriving DecidableEq

/-- Container, from simulator/workflows/container.py; equality on both fields. -/
structure Container where
  workflow_uuid : String
  provision_time : ℤ
deriving DecidableEq

/-- VM lifecycle state, from simulator/vms/instance.py (State). -/
inductive VMState where
  | notProvisioned
  | provisioned
  | busy
  | shutdown
deriving DecidableEq

/-- Mutable fields of a VM object, from simulator/vms/instance.py (VM).
The VM class has no reserved_by (or similar) attribute; reserve() and
release() only flip the state field. -/
structure VMRec where
  vtype : VMType
  start_time : ℚ
  finish_time : ℚ
  last_release_time : Option ℚ
  files : List WFile
  containers : List Container
  state : VMState
deriving DecidableEq

/-- simulator/utils/cost.py, calculate_price_for_vm.  The period count
is the source expression
  (use_time_left // billing_period + (use_time_left % billing_period) > 0)
which by Python operator precedence is a comparison (a Boolean). -/
def calculate_price_for_vm (current_time use_time : ℚ) (vm : VMRec) : ℚ :=
  let vm_working_time := current_time - vm.start_time
  let time_left_in_last_period := pyMod vm_working_time vm.vtype.billing_period
  if use_time ≤ time_left_in_last_period then 0
  else
    let use_time_left := use_time - time_left_in_last_period
    pyBool (pyFloorDiv use_time_left vm.vtype.billing_period
            + pyMod use_time_left vm.vtype.billing_period > 0)
      * vm.vtype.price

/-- simulator/utils/cost.py, estimate_price_for_vm_type; same Boolean
period-count expression. -/
def estimate_price_for_vm_type (use_time : ℚ) (vm_type : VMType) : ℚ :=
  pyBool (pyFloorDiv use_time vm_type.billing_period
          + pyMod use_time vm_type.billing_period > 0)
    * vm_type.price

/-- simulator/vms/instance.py, VM.calculate_cost; same Boolean
period-count expression over (finish_time - start_time). -/
def VM_calculate_cost (vm : VMRec) (time : Option ℚ) : ℚ :=
  let finish_time := time.getD vm.finish_time
  let total_seconds := finish_time - vm.start_time
  pyBool (pyFloorDiv total_seconds vm.vtype.billing_period
          + pyMod total_seconds vm.vtype.billing_period > 0)
    * vm.vtype.price

/-- The S6 catalog entry: billing_period 3600 s, price 1. -/
def vmTypeS6 : VMType :=
  { name := "slow", cpu := 1, memory := 1, price := 1
    billing_period := 3600, io_bandwidth := 100 }

/-- A VM of type vmTypeS6 provisioned at virtual time 0. -/
def vmS6 : VMRec :=
  { vtype := vmTypeS6, start_time := 0, finish_time := 0
    last_release_time := none, files := [], containers := []
    state := VMState.provisioned }

/-- Python-level errors surfaced by the embedded operations. -/
inductive PyErr where
  | assertionError
  | typeError
deriving DecidableEq

/-- State of the VM manager, from simulator/vms/manager.py (Manager):
the tracked VM set, the idle index, and the collector tallies the
manager mutates.  VM objects are identified by numeric ids into store. -/
structure MgrState where
  store : ℕ → VMRec
  vms : Finset ℕ
  idle_vms : Finset ℕ
  next_id : ℕ
  collector_cost : ℚ
  collector_removed_vms : ℕ
  collector_vms_left : ℕ

/-- simulator/vms/instance.py, VM.check_if_files_present: the code
returns self.files.issubset(set(files)) - it tests that the VM's files
all occur among the incoming files, not the converse its docstring
("check if all incoming files are present on VM") describes. -/
def check_if_files_present (vm : VMRec) (files : List WFile) : Bool :=
  vm.files.all (fun f => f ∈ files)

/-- simulator/vms/instance.py, VM.check_if_container_provisioned. -/
def check_if_container_provisioned (vm : VMRec) (c : Container) : Bool :=
  c ∈ vm.containers

/-- The slice of a task consumed by Manager.get_idle_vms. -/
structure TaskLite where
  input_files : List WFile
  container : Container

/-- Loop-body condition of Manager.get_idle_vms: keep an idle VM when it
passes the task-files filter or the container filter. -/
def idleFilterKeep (s : MgrState) (task : Option TaskLite)
    (container : Option Container) (v : ℕ) : Bool :=
  (match task with
   | some t => check_if_files_present (s.store v) t.input_files
   | none => false)
  || (match container with
      | some c => check_if_container_provisioned (s.store v) c
      | none => false)

/-- simulator/vms/manager.py, Manager.get_idle_vms: with no filter the
idle set itself; otherwise every idle VM passing the task-files filter
or the container filter (the union of the two filters). -/
def get_idle_vms (s : MgrState) (task : Option TaskLite)
    (container : Option Container) : Finset ℕ :=
  match task, container with
  | none, none => s.idle_vms
  | _, _ => s.idle_vms.filter (fun v => idleFilterKeep s task container v)

/-- simulator/vms/manager.py, Manager.init_vm: a fresh VM object in
state NOT_PROVISIONED is created and tracked (the VM constructor fills
the time fields with placeholder values, modelled by 0). -/
def init_vm (s : MgrState) (vm_type : VMType) : MgrState × ℕ :=
  ({ s with
      store := Function.update s.store s.next_id
        { vtype := vm_type, start_time := 0, finish_time := 0
          last_release_time := none, files := [], containers := []
          state := VMState.notProvisioned }
      vms := insert s.next_id s.vms
      next_id := s.next_id + 1 },
    s.next_id)

/-- simulator/vms/manager.py, Manager.provision_vm: asserts the VM is
NOT_PROVISIONED, then VM.provision sets start_time and PROVISIONED and
the manager inserts it into the idle index. -/
def provision_vm (s : MgrState) (v : ℕ) (time : ℚ) :
    Except PyErr MgrState :=
  if (s.store v).state = VMState.notProvisioned then
    Except.ok { s with
      store := Function.update s.store v
        { s.store v with start_time := time, state := VMState.provisioned }
      idle_vms := insert v s.idle_vms }
  else Except.error PyErr.assertionError

/-- simulator/vms/manager.py, Manager.reserve_vm: after the PROVISIONED
assertion it calls vm.reserve(task=task), but VM.reserve (instance.py
line 132) accepts no task parameter, so the call raises TypeError
before any state change; the VM class has no reserved_by attribute. -/
def reserve_vm (s : MgrState) (v : ℕ) (_task : ℕ) : Except PyErr MgrState :=
  if (s.store v).state = VMState.provisioned then
    Except.error PyErr.typeError
  else Except.error PyErr.assertionError

/-- simulator/vms/manager.py, Manager.release_vm: asserts the VM is
tracked; VM.release asserts BUSY and sets PROVISIONED; the manager
re-inserts the VM into the idle index.  Nothing in the code base ever
assigns last_release_time, so it is left untouched. -/
def release_vm (s : MgrState) (v : ℕ) : Except PyErr MgrState :=
  if v ∈ s.vms then
    if (s.store v).state = VMState.busy then
      Except.ok { s with
        store := Function.update s.store v
          { s.store v with state := VMState.provisioned }
        idle_vms := insert v s.idle_vms }
    else Except.error PyErr.assertionError
  else Except.error PyErr.assertionError

/-- simulator/vms/manager.py, Manager.shutdown_vm: asserts PROVISIONED;
VM.shutdown sets finish_time and SHUTDOWN; the manager removes the VM
from the idle index and books its cost (computed from the now-set
finish_time) into the collector. -/
def shutdown_vm (s : MgrState) (time : ℚ) (v : ℕ) :
    Except PyErr MgrState :=
  if (s.store v).state = VMState.provisioned then
    Except.ok { s with
      store := Function.update s.store v
        { s.store v with finish_time := time, state := VMState.shutdown }
      idle_vms := s.idle_vms.erase v
      collector_removed_vms := s.collector_removed_vms + 1
      collector_cost := s.collector_cost
        + VM_calculate_cost
            { s.store v with finish_time := time, state := VMState.shutdown }
            none }
  else Except.error PyErr.assertionError

/-- One iteration of the shutdown_vms loop body: VM.shutdown plus the
collector bookkeeping. -/
def shutdown_vms_step (time : ℚ) (acc : MgrState) (v : ℕ) : MgrState :=
  { acc with
    store := Function.update acc.store v
      { acc.store v with finish_time := time, state := VMState.shutdown }
    collector_vms_left := acc.collector_vms_left + 1
    collector_cost := acc.collector_cost
      + VM_calculate_cost
          { acc.store v with finish_time := time, state := VMState.shutdown }
          none }

/-- simulator/vms/manager.py, Manager.shutdown_vms: iterates over the
idle index (or the given list) calling VM.shutdown on each - without
removing anything from the idle index.  VM.shutdown asserts the state
is neither NOT_PROVISIONED nor SHUTDOWN; on success the final state is
independent of the set-iteration order, which the embedding fixes by
sorting the ids. -/
def shutdown_vms (s : MgrState) (time : ℚ) (vmList : Option (List ℕ)) :
    Except PyErr MgrState :=
  let targets := match vmList with
    | none => s.idle_vms.sort (· ≤ ·)
    | some l => l
  if targets.all (fun v =>
      (s.store v).state ≠ VMState.notProvisioned
        ∧ (s.store v).state ≠ VMState.shutdown) then
    Except.ok (targets.foldl (shutdown_vms_step time) s)
  else Except.error PyErr.assertionError

/-- The idle-index invariant: every VM in the idle index is PROVISIONED. -/
def IdleInv (s : MgrState) : Prop :=
  ∀ v ∈ s.idle_vms, (s.store v).state = VMState.provisioned

/-- A default VM record used to populate concrete manager stores. -/
def blankVM (st : VMState) : VMRec :=
  { vtype := vmTypeS6, start_time := 0, finish_time := 0
    last_release_time := none, files := [], containers := []
    state := st }

/-- Concrete manager state: one PROVISIONED VM, id 0, in the idle index. -/
def mgrOneIdle : MgrState :=
  { store := fun _ => blankVM VMState.provisioned
    vms := {0}, idle_vms := {0}, next_id := 1
    collector_cost := 0, collector_removed_vms := 0, collector_vms_left := 0 }

/-- Concrete manager state: one BUSY VM, id 0, tracked but not idle. -/
def mgrOneBusy : MgrState :=
  { store := fun _ => blankVM VMState.busy
    vms := {0}, idle_vms := ∅, next_id := 1
    collector_cost := 0, collector_removed_vms := 0, collector_vms_left := 0 }

/-- Input file used in the get_idle_vms scenario. -/
def fIn : WFile := { name := "input.dat", size := 100 }

/-- Extra file used in the get_idle_vms scenario. -/
def fExtra : WFile := { name := "extra.dat", size := 7 }

/-- Manager state for the get_idle_vms scenario: idle VM 0 holds no
files at all, idle VM 1 holds the needed input file plus another one. -/
def mgrFiles : MgrState :=
  { store := fun v =>
      if v = 1 then
        { blankVM VMState.provisioned with files := [fIn, fExtra] }
      else blankVM VMState.provisioned
    vms := {0, 1}, idle_vms := {0, 1}, next_id := 2
    collector_cost := 0, collector_removed_vms := 0, collector_vms_left := 0 }

/-- Task whose only input file is fIn. -/
def taskNeedsFIn : TaskLite :=
  { input_files := [fIn]
    container := { workflow_uuid := "wf", provision_time := 0 } }

/-- Shared storage, from simulator/storages/instance.py. -/
structure Storage where
  read_rate : ℚ
  write_rate : ℚ

/-- Task data consumed by the prediction functions, from
simulator/workflows/task.py. -/
structure PTask where
  input_files : List WFile
  output_files : List WFile
  runtime : ℚ
  container : Container

/-- simulator/workflows/file.py, File.size_in_megabits. -/
def size_in_megabits (f : WFile) : ℚ := (f.size : ℚ) / 125

/-- simulator/utils/task_execution_prediction.py, io_consumption. -/
def io_consumption (task : PTask) (vm_type : VMType) (storage : Storage)
    (vm : Option VMRec) (container_prov : ℚ) (vm_prov : ℚ) : ℚ :=
  let prov : ℚ := match vm with
    | some v =>
      (if v.state = VMState.notProvisioned then vm_prov else 0)
        + (if check_if_container_provisioned v task.container then 0
           else container_prov)
    | none => container_prov + vm_prov
  let inputs : ℚ := task.input_files.foldl
    (fun acc f =>
      acc + size_in_megabits f / vm_type.io_bandwidth
        + (match vm with
           | none => size_in_megabits f / storage.read_rate
           | some v =>
             if check_if_files_present v [f] then 0
             else size_in_megabits f / storage.read_rate))
    0
  let outputs : ℚ := task.output_files.foldl
    (fun acc f =>
      acc + size_in_megabits f / vm_type.io_bandwidth
        + size_in_megabits f / storage.write_rate)
    0
  prov + inputs + outputs

/-- simulator/utils/task_execution_prediction.py, io_and_runtime: the
io_consumption body plus runtime / cpu. -/
def io_and_runtime (task : PTask) (vm_type : VMType) (storage : Storage)
    (vm : Option VMRec) (container_prov : ℚ) (vm_prov : ℚ) : ℚ :=
  io_consumption task vm_type storage vm container_prov vm_prov
    + task.runtime / vm_type.cpu

/-- Task node for EFT computation: id plus parent ids; the trace parser
guarantees every parent is listed before its child. -/
structure DagTask where
  id : ℕ
  parents : List ℕ

/-- Maximum parent EFT, 0 for an entry task (EPSMScheduler._calculate_eft). -/
def maxParentEft (efts : ℕ → ℚ) (parents : List ℕ) : ℚ :=
  match parents with
  | [] => 0
  | p :: ps => ps.foldl (fun m q => max m (efts q)) (efts p)

/-- One pass of EPSMScheduler._calculate_efts_and_makespan for a fixed
VM type: EFTs are cleared to 0, computed in task order, and the makespan
is the running maximum starting from 0.0. -/
def calcMakespan (predict : DagTask → ℚ) (tasks : List DagTask) : ℚ :=
  (tasks.foldl
    (fun acc t =>
      let eft := maxParentEft acc.1 t.parents + predict t
      (Function.update acc.1 t.id eft, if eft > acc.2 then eft else acc.2))
    (fun _ => (0 : ℚ), (0 : ℚ))).2

/-- simulator/schedulers/epsm/scheduler.py,
EPSMScheduler._calculate_efts_and_makespan: scan VM types in catalog
order and accept the first whose current_time + makespan ≤ deadline
(inclusive); raise ValueError when none qualifies.  predict stands for
the injected predict_func evaluated on a task and a VM type. -/
def calculate_efts_and_makespan (predict : DagTask → VMType → ℚ)
    (tasks : List DagTask) (vm_types : List VMType)
    (current_time deadline : ℚ) : Except String VMType :=
  match vm_types.find? (fun vt =>
      current_time + calcMakespan (fun t => predict t vt) tasks ≤ deadline)
    with
  | some vt => Except.ok vt
  | none => Except.error "Bad deadline for workflow"

/-- simulator/schedulers/epsm/scheduler.py,
EPSMScheduler._find_cheapest_vm_type_for_task: return the first VM type
whose current_time + predicted execution time < deadline (STRICT
comparison in the source), and the last catalog entry when none fits. -/
def find_cheapest_vm_type_for_task (exec_time : VMType → ℚ)
    (vm_types : List VMType) (current_time deadline : ℚ) : Option VMType :=
  match vm_types.find? (fun vt => current_time + exec_time vt < deadline)
    with
  | some vt => some vt
  | none => vm_types.getLast?

/-- Slow catalog entry for the C4 scenario: 1 cpu, price 1. -/
def slowT : VMType :=
  { name := "slow", cpu := 1, memory := 8, price := 1
    billing_period := 3600, io_bandwidth := 100 }

/-- Fast catalog entry for the C4 scenario: 2 cpus, price 4. -/
def fastT : VMType :=
  { name := "fast", cpu := 2, memory := 8, price := 4
    billing_period := 3600, io_bandwidth := 100 }

/-- Default storage: 1000 Mbps read and write. -/
def storageDefault : Storage := { read_rate := 1000, write_rate := 1000 }

/-- A file-free task with runtime 100 s for the C4 scenario. -/
def taskRt100 : PTask :=
  { input_files := [], output_files := [], runtime := 100
    container := { workflow_uuid := "wf", provision_time := 0 } }

/-- Execution-time estimate used in EPSM per-task selection for the C4
scenario: the io_and_runtime model on taskRt100 with no files and no
provisioning delays, i.e. 100 / cpu seconds. -/
def execC4 (vt : VMType) : ℚ :=
  io_and_runtime taskRt100 vt storageDefault none 0 0

/-- Task lifecycle state, from simulator/workflows/task.py (State). -/
inductive TaskState where
  | created
  | scheduled
  | finished
deriving DecidableEq

/-- Predecessors of a node in the workflow DAG (edge list (parent, child)
built by the trace parser). -/
def predecessorsOf (edges : List (ℕ × ℕ)) (v : ℕ) : List ℕ :=
  edges.filterMap (fun e => if e.2 = v then some e.1 else none)

/-- Successors of a node in the workflow DAG. -/
def successorsOf (edges : List (ℕ × ℕ)) (v : ℕ) : List ℕ :=
  edges.filterMap (fun e => if e.1 = v then some e.2 else none)

/-- Root nodes: DAG nodes with no predecessors, in node order
(EBPSMScheduler._allocate_levels). -/
def dagRootsOf (nodes : List ℕ) (edges : List (ℕ × ℕ)) : List ℕ :=
  nodes.filter (fun v => (predecessorsOf edges v).isEmpty)

/-- Append each element of the second list not yet present (set-like
frontier extension for breadth-first search). -/
def extendFrontier (seen : List ℕ) (acc : List ℕ) (cand : List ℕ) :
    List ℕ :=
  cand.foldl (fun acc v => if v ∈ seen ∨ v ∈ acc then acc else acc ++ [v])
    acc

/-- Breadth-first (node, distance) pairs from a frontier, embedding
networkx single_source_shortest_path_length; fuel bounds the depth and
any fuel of at least the node count is exact. -/
def bfsPairs (edges : List (ℕ × ℕ)) :
    ℕ → List ℕ → List ℕ → ℕ → List (ℕ × ℕ)
  | 0, _, _, _ => []
  | _ + 1, [], _, _ => []
  | fuel + 1, frontier, visited, d =>
    let visited2 := visited ++ frontier
    let next := frontier.foldl
      (fun acc v => extendFrontier visited2 acc (successorsOf edges v)) []
    frontier.map (fun v => (v, d)) ++ bfsPairs edges fuel next visited2 (d + 1)

/-- Add one (node, level) pair into the level map with set semantics
(defaultdict(set) plus set.add in _allocate_levels). -/
def addLevelEntry (levels : ℕ → List ℕ) (p : ℕ × ℕ) : ℕ → List ℕ :=
  fun l =>
    if l = p.2 then
      (if p.1 ∈ levels p.2 then levels p.2 else levels p.2 ++ [p.1])
    else levels l

/-- simulator/schedulers/ebpsm/scheduler.py,
EBPSMScheduler._allocate_levels: for each root, shortest-path levels of all
reachable nodes are merged into the per-level sets; a node reachable from
two roots at different distances enters two different level sets. -/
def allocate_levels (nodes : List ℕ) (edges : List (ℕ × ℕ)) :
    ℕ → List ℕ :=
  (dagRootsOf nodes edges).foldl
    (fun levels root =>
      (bfsPairs edges (nodes.length + 1) [root] [] 0).foldl addLevelEntry
        levels)
    (fun _ => [])

/-- EFT map computed in task order (EBPSMScheduler._calculate_efts on
the slowest VM type; predict stands for the injected predict_func). -/
def calcEftsMap (predict : ℕ → ℚ) (tasks : List DagTask) : ℕ → ℚ :=
  tasks.foldl
    (fun efts t =>
      Function.update efts t.id (maxParentEft efts t.parents + predict t.id))
    (fun _ => 0)

/-- Stable insertion into an eft-ascending list (Python sorted is
stable; equal keys keep encounter order). -/
def insertAscEft (eft : ℕ → ℚ) (x : ℕ) : List ℕ → List ℕ
  | [] => [x]
  | y :: ys => if eft x < eft y then x :: y :: ys else y :: insertAscEft eft x ys

/-- Stable sort of task ids by ascending EFT. -/
def sortByEft (eft : ℕ → ℚ) (l : List ℕ) : List ℕ :=
  l.foldl (fun acc x => insertAscEft eft x acc) []

/-- simulator/schedulers/ebpsm/scheduler.py, EBPSMScheduler._fill_eeoq:
concatenate the level sets in ascending level order, each sorted by EFT;
maxLvl bounds the populated levels (empty levels contribute nothing). -/
def fill_eeoq (levels : ℕ → List ℕ) (maxLvl : ℕ) (eft : ℕ → ℚ) :
    List ℕ :=
  (List.range (maxLvl + 1)).foldl
    (fun acc l => acc ++ sortByEft eft (levels l)) []

/-- Stable insertion into a price-descending list. -/
def insertDescPrice (x : VMType) : List VMType → List VMType
  | [] => [x]
  | y :: ys =>
    if y.price < x.price then x :: y :: ys else y :: insertDescPrice x ys

/-- Stable sort of VM types by descending price (sorted with
reverse=True in the source). -/
def sortDescPrice (l : List VMType) : List VMType :=
  l.foldl (fun acc x => insertDescPrice x acc) []

/-- simulator/schedulers/ebpsm/scheduler.py,
EBPSMScheduler._find_fastest_vm_type_within_budget: scan VM types in
descending price order and return the first whose estimated single-run
price fits the budget, with that price. -/
def find_fastest_vm_type_within_budget (predictT : VMType → ℚ)
    (vm_types : List VMType) (budget : ℚ) : Option (ℚ × VMType) :=
  (sortDescPrice vm_types).findSome? (fun vt =>
    let price := estimate_price_for_vm_type (predictT vt) vt
    if price ≤ budget then some (price, vt) else none)

/-- simulator/schedulers/ebpsm/scheduler.py,
EBPSMScheduler._distribute_budget (FFTD): walk the EEOQ while budget
remains, skip SCHEDULED/FINISHED tasks, give each task the price of the
fastest affordable VM type (or the whole remaining budget when none is
affordable), and store the leftover as spare budget.  findF stands for
_find_fastest_vm_type_within_budget applied to the task. -/
def distribute_budget (findF : ℕ → ℚ → Option (ℚ × VMType))
    (states : ℕ → TaskState) :
    List ℕ → (ℕ → ℚ) → ℚ → ((ℕ → ℚ) × ℚ)
  | eeoq, budgets, budget =>
    if 0 < budget then
      match eeoq with
      | [] => (budgets, budget)
      | tid :: rest =>
        if states tid = TaskState.scheduled
            ∨ states tid = TaskState.finished then
          distribute_budget findF states rest budgets budget
        else
          let tb := match findF tid budget with
            | none => budget
            | some (p, _) => p
          distribute_budget findF states rest
            (Function.update budgets tid tb) (budget - tb)
    else (budgets, budget)

/-- Workflow container with zero provision time for the C5 scenario. -/
def contC5 : Container := { workflow_uuid := "wf5", provision_time := 0 }

/-- The C5 DAG: tasks 0..3, edges 1→2, 0→3, 2→3 (nodes listed in the
order networkx first touches them while the parser adds edges). -/
def nodesC5 : List ℕ := [1, 2, 0, 3]

/-- Edge list of the C5 DAG, in parser order. -/
def edgesC5 : List (ℕ × ℕ) := [(1, 2), (0, 3), (2, 3)]

/-- Parent lists of the C5 tasks, in task order. -/
def tasksC5 : List DagTask := [⟨0, []⟩, ⟨1, []⟩, ⟨2, [1]⟩, ⟨3, [0, 2]⟩]

/-- Distinct runtimes of the C5 tasks. -/
def rtC5 (tid : ℕ) : ℚ :=
  if tid = 0 then 10 else if tid = 1 then 20 else if tid = 2 then 30 else 40

/-- File-free prediction inputs for the C5 tasks. -/
def pTaskC5 (tid : ℕ) : PTask :=
  { input_files := [], output_files := [], runtime := rtC5 tid
    container := contC5 }

/-- Injected predict_func for C5: io_and_runtime on the slowest type
(slowT), with no provisioning delays, i.e. runtime / 1 seconds. -/
def predC5 (tid : ℕ) : ℚ :=
  io_and_runtime (pTaskC5 tid) slowT storageDefault none 0 0

/-- EFT map of the C5 workflow. -/
def eftC5 : ℕ → ℚ := calcEftsMap predC5 tasksC5

/-- The EEOQ the code builds for the C5 workflow. -/
def eeoqC5 : List ℕ :=
  fill_eeoq (allocate_levels nodesC5 edgesC5) nodesC5.length eftC5

/-- Per-task fastest-affordable-type search for C5, over the one-type
catalog [slowT] (price 1). -/
def findFC5 (tid : ℕ) (b : ℚ) : Option (ℚ × VMType) :=
  find_fastest_vm_type_within_budget
    (fun vt => io_and_runtime (pTaskC5 tid) vt storageDefault none 0 0)
    [slowT] b

/-- Result of FFTD budget distribution for the C5 workflow at submit
time (all tasks CREATED) with budget 10. -/
def distC5 : (ℕ → ℚ) × ℚ :=
  distribute_budget findFC5 (fun _ => TaskState.created) eeoqC5
    (fun _ => 0) 10

instance : Inhabited VMType :=
  ⟨{ name := "", cpu := 0, memory := 0, price := 0, billing_period := 0
     io_bandwidth := 0 }⟩

/-- simulator/vms/manager.py, Manager.get_vm_types with faster_than:
the catalog suffix strictly after the first entry equal to the given
type; the Python function falls off the loop (returning None) when the
type is not found. -/
def get_vm_types_faster_than : List VMType → VMType → Option (List VMType)
  | [], _ => none
  | vt :: rest, ft =>
    if vt = ft then some rest else get_vm_types_faster_than rest ft

/-- A Dyna configuration plan: VM type per task id, plus the search
level (simulator/schedulers/dyna/workflow.py, ConfigurationPlan). -/
structure ConfPlan where
  plan : List VMType
  level : ℕ
deriving DecidableEq

/-- The loop of DynaScheduler._get_configuration_plan_neighbors.  In the
source, neighbor.plan = configuration_plan.plan binds the SAME list
object, and neighbor.plan[level] = vm_type then mutates that shared
list; every neighbor and the input plan alias one list.  The embedding
tracks the shared list through the iterations and counts the appended
neighbors; each iteration writes vm_type at index level. -/
def neighborsLoop (shared : List VMType) (level : ℕ) :
    List VMType → List VMType × ℕ
  | [] => (shared, 0)
  | vt :: rest =>
    let shared2 := shared.set level vt
    let r := neighborsLoop shared2 level rest
    (r.1, r.2 + 1)

/-- simulator/schedulers/dyna/scheduler.py,
DynaScheduler._get_configuration_plan_neighbors, observed after the
call: the input plan (whose aliased list now holds the final write) and
the produced neighbors (all aliasing that same final list, each at
level + 1). -/
def get_configuration_plan_neighbors (catalog : List VMType)
    (p : ConfPlan) : Option (ConfPlan × List ConfPlan) :=
  match get_vm_types_faster_than catalog (p.plan.getD p.level default) with
  | none => none
  | some faster =>
    let r := neighborsLoop p.plan p.level faster
    some ({ plan := r.1, level := p.level },
      List.replicate r.2 { plan := r.1, level := p.level + 1 })

/-- Middle catalog entry for the C9 scenario: price 2. -/
def midT : VMType :=
  { name := "mid", cpu := 2, memory := 8, price := 2
    billing_period := 3600, io_bandwidth := 100 }

/-- Event of the loop, from simulator/schedulers/event.py: the virtual
start time plus a tag standing for the payload (workflow/task/vm refs),
which distinguishes events but plays no part in the ordering. -/
structure Event where
  start_time : ℚ
  tag : ℕ
deriving DecidableEq

instance : Inhabited Event := ⟨⟨0, 0⟩⟩

/-- simulator/schedulers/event.py, Event.__lt__: only start_time is
compared; there is no insertion-sequence tie-break. -/
def eventLt (a b : Event) : Bool := decide (a.start_time < b.start_time)

/-- Ordering key of an event. -/
def ekey (e : Event) : ℚ := e.start_time

/-- Parent index in the binary-heap array layout. -/
def hpParent (i : ℕ) : ℕ := (i - 1) / 2

/-- CPython heapq._siftdown (the bubble-up used by heappush, and the
final phase of _siftup), with startpos = 0 as at every call site in
heapq: shift parents greater than newitem down, then place newitem.
The recursion is driven by fuel; fuel of at least pos reproduces the
loop exactly (each step moves to the strictly smaller parent index), so
the fuel-exhausted arm below is unreachable at the call sites. -/
def siftdownGo (newitem : Event) : ℕ → ℕ → List Event → List Event
  | _, 0, heap => heap.set 0 newitem
  | 0, pos + 1, heap => heap.set (pos + 1) newitem
  | fuel + 1, pos + 1, heap =>
    if eventLt newitem (heap.getD (hpParent (pos + 1)) default) then
      siftdownGo newitem fuel (hpParent (pos + 1))
        (heap.set (pos + 1) (heap.getD (hpParent (pos + 1)) default))
    else heap.set (pos + 1) newitem

/-- CPython heapq.heappush: append, then bubble the new item up from the
last position. -/
def heappush (heap : List Event) (item : Event) : List Event :=
  siftdownGo item (heap ++ [item]).length ((heap ++ [item]).length - 1)
    (heap ++ [item])

/-- CPython heapq._siftup: walk the hole at pos down to a leaf, always
moving the smaller child up (on a tie or when the left child is not
smaller, the RIGHT child is chosen), then bubble newitem up from the
leaf.  Writing heap[pos] before the final _siftdown is dropped because
_siftdown never reads index pos and overwrites it.  The position
strictly increases each step, so fuel of at least endpos - pos
reproduces the loop exactly. -/
def siftupGo (endpos : ℕ) (newitem : Event) : ℕ → ℕ → List Event → List Event
  | 0, pos, heap => siftdownGo newitem pos pos heap
  | fuel + 1, pos, heap =>
    if 2 * pos + 1 < endpos then
      siftupGo endpos newitem fuel
        (if 2 * pos + 2 < endpos
            ∧ eventLt (heap.getD (2 * pos + 1) default)
                (heap.getD (2 * pos + 2) default) = false
          then 2 * pos + 2 else 2 * pos + 1)
        (heap.set pos (heap.getD
          (if 2 * pos + 2 < endpos
              ∧ eventLt (heap.getD (2 * pos + 1) default)
                  (heap.getD (2 * pos + 2) default) = false
            then 2 * pos + 2 else 2 * pos + 1) default))
    else siftdownGo newitem pos pos heap

/-- CPython heapq.heappop: pop the last element; if the heap is still
nonempty, the root is the return value, the last element is moved to the
root and sifted up (down to a leaf, then bubbled).  Returns none on an
empty heap (Python raises IndexError). -/
def heappop : List Event → Option (Event × List Event)
  | [] => none
  | x :: xs =>
    let lastelt := (x :: xs).getD ((x :: xs).length - 1) default
    let rest := (x :: xs).dropLast
    if rest.isEmpty then some (lastelt, [])
    else
      let h2 := rest.set 0 lastelt
      some (rest.getD 0 default, siftupGo h2.length lastelt h2.length 0 h2)

/-- The binary min-heap invariant of the event queue: every non-root
entry is at least its parent in start_time. -/
def heapInv (l : List Event) : Prop :=
  ∀ i, 0 < i → i < l.length →
    ekey (l.getD (hpParent i) default) ≤ ekey (l.getD i default)

/-- Queue states reachable from the empty queue through heappush and
heappop - the only operations the event loop performs. -/
inductive ReachableHeap : List Event → Prop where
  | empty : ReachableHeap []
  | push (l : List Event) (e : Event) :
      ReachableHeap l → ReachableHeap (heappush l e)
  | pop (l : List Event) (e : Event) (l2 : List Event) :
      ReachableHeap l → heappop l = some (e, l2) → ReachableHeap l2

/-- First event of the C6 scenario: start_time 1, inserted first. -/
def evA : Event := { start_time := 1, tag := 0 }

/-- Second event of the C6 scenario: start_time 1, inserted second. -/
def evB : Event := { start_time := 1, tag := 1 }

/-- Third event of the C6 scenario: start_time 0, inserted last. -/
def evC : Event := { start_time := 0, tag := 2 }

/-- C1. The code's period count collapses to a Boolean: the S6 scenario
(VM started at t=0, billing_period 3600, price 1, shut down at t=3601)
is charged 1 by VM.calculate_cost, not the 2 the specification's ceiling
formula requires, and calculate_price_for_vm at start time with
use_time = 3601 likewise returns 1 instead of ceil(3601/3600) * 1 = 2. -/
theorem C1_billing_boundary_code_charges_one :
    VM_calculate_cost vmS6 (some 3601) = 1
      ∧ calculate_price_for_vm 0 3601 vmS6 = 1
      ∧ (1 : ℚ) ≠ 2 := by
  have hfl : ⌊(3601 : ℚ) / 3600⌋ = 1 := by
    rw [Int.floor_eq_iff]
    norm_num
  refine ⟨?_, ?_, by norm_num⟩
  · simp only [VM_calculate_cost, vmS6, vmTypeS6, pyBool, pyFloorDiv, pyMod,
      Option.getD]
    norm_num [hfl]
  · simp only [calculate_price_for_vm, vmS6, vmTypeS6, pyBool, pyFloorDiv,
      pyMod]
    norm_num [hfl]

/-- The estimated price of any positive use time on a type with positive
billing period is exactly the type's per-period price: the Boolean
period count is true whenever use_time is positive. -/
theorem estimate_price_for_vm_type_of_pos (ut : ℚ) (vt : VMType)
    (h1 : 0 < ut) (h2 : 0 < vt.billing_period) :
    estimate_price_for_vm_type ut vt = vt.price := by
  unfold estimate_price_for_vm_type pyBool pyFloorDiv pyMod
  have hq : (0 : ℤ) ≤ ⌊ut / vt.billing_period⌋ :=
    Int.floor_nonneg.mpr (le_of_lt (div_pos h1 h2))
  have hfl : (⌊ut / vt.billing_period⌋ : ℚ) ≤ ut / vt.billing_period :=
    Int.floor_le _
  have hmod : 0 ≤ ut - vt.billing_period * ⌊ut / vt.billing_period⌋ := by
    have := mul_le_mul_of_nonneg_left hfl (le_of_lt h2)
    have h3 : vt.billing_period * (ut / vt.billing_period) = ut := by
      field_simp
    linarith
  have hpos : (⌊ut / vt.billing_period⌋ : ℚ)
      + (ut - vt.billing_period * ⌊ut / vt.billing_period⌋) > 0 := by
    rcases lt_or_eq_of_le hq with hq1 | hq1
    · have h4 : (1 : ℚ) ≤ (⌊ut / vt.billing_period⌋ : ℚ) := by
        exact_mod_cast hq1
      linarith
    · have hz : ((⌊ut / vt.billing_period⌋ : ℤ) : ℚ) = 0 := by
        rw [← hq1]; norm_num

      rw [hz] at *
      rw [hz]
      simp only [mul_zero, sub_zero, zero_add]
      linarith
  rw [if_pos hpos, one_mul]

/-- C10. The Boolean period count means prices never exceed one billing
period: estimate_price_for_vm_type returns exactly the type's price for
every positive use_time (given a positive billing period), and
calculate_price_for_vm and VM.calculate_cost only ever return 0 or
exactly one period's price. -/
theorem C10_price_is_zero_or_one_period (ut : ℚ) (vt : VMType)
    (ct t : ℚ) (vm : VMRec) (tm : Option ℚ) (vm2 : VMRec)
    (h1 : 0 < ut) (h2 : 0 < vt.billing_period) :
    estimate_price_for_vm_type ut vt = vt.price
      ∧ (calculate_price_for_vm ct t vm = 0
          ∨ calculate_price_for_vm ct t vm = vm.vtype.price)
      ∧ (VM_calculate_cost vm2 tm = 0
          ∨ VM_calculate_cost vm2 tm = vm2.vtype.price) := by
  refine ⟨estimate_price_for_vm_type_of_pos ut vt h1 h2, ?_, ?_⟩
  · unfold calculate_price_for_vm pyBool
    dsimp only
    split
    · exact Or.inl rfl
    · split
      · exact Or.inr (one_mul _)
      · exact Or.inl (zero_mul _)
  · unfold VM_calculate_cost pyBool
    dsimp only
    split
    · exact Or.inr (one_mul _)
    · exact Or.inl (zero_mul _)

/-- Witness for C10 at concrete inputs. -/
theorem C10_price_is_zero_or_one_period_witness :
    (0 : ℚ) < 1 ∧ (0 : ℚ) < vmTypeS6.billing_period
      ∧ (estimate_price_for_vm_type 1 vmTypeS6 = vmTypeS6.price
          ∧ (calculate_price_for_vm 0 1 vmS6 = 0
              ∨ calculate_price_for_vm 0 1 vmS6 = vmS6.vtype.price)
          ∧ (VM_calculate_cost vmS6 (some 1) = 0
              ∨ VM_calculate_cost vmS6 (some 1) = vmS6.vtype.price)) :=
  ⟨by norm_num, by norm_num [vmTypeS6],
    C10_price_is_zero_or_one_period 1 vmTypeS6 0 1 vmS6 (some 1) vmS6
      (by norm_num) (by norm_num [vmTypeS6])⟩

/-- C2. Contrary to the claim, reserve_vm never completes: for every VM
in state PROVISIONED and every task, the PROVISIONED assertion passes but
the call vm.reserve(task=task) raises TypeError because VM.reserve
accepts no task argument; the VM never becomes BUSY, stays in the idle
index, and no reserving task is recorded (the VM class has no
reserved_by attribute at all). -/
theorem C2_reserve_vm_raises_type_error (s : MgrState) (v task : ℕ)
    (h : (s.store v).state = VMState.provisioned) :
    reserve_vm s v task = Except.error PyErr.typeError := by
  unfold reserve_vm
  rw [if_pos h]

/-- Witness for C2 on a concrete provisioned VM. -/
theorem C2_reserve_vm_raises_type_error_witness :
    (mgrOneIdle.store 0).state = VMState.provisioned
      ∧ reserve_vm mgrOneIdle 0 7 = Except.error PyErr.typeError :=
  ⟨rfl, C2_reserve_vm_raises_type_error mgrOneIdle 0 7 rfl⟩

/-- C3. The file filter of get_idle_vms is reversed: with a task whose
only input file is fIn, the returned set is exactly the idle VM that
holds no files at all (its empty file set is trivially a subset of the
input files), while the idle VM that actually holds fIn (plus one more
file) is excluded. -/
theorem C3_get_idle_vms_file_filter_reversed :
    0 ∈ get_idle_vms mgrFiles (some taskNeedsFIn) none
      ∧ 1 ∉ get_idle_vms mgrFiles (some taskNeedsFIn) none
      ∧ fIn ∉ (mgrFiles.store 0).files
      ∧ fIn ∈ (mgrFiles.store 1).files := by
  refine ⟨by decide, by decide, by decide, by decide⟩

/-- C7 counterexample. shutdown_vms violates the idle-index invariant:
from a state satisfying it (one PROVISIONED VM in the idle index),
shutdown_vms succeeds yet leaves the now-SHUTDOWN VM in the idle index. -/
theorem C7_shutdown_vms_breaks_idle_invariant :
    IdleInv mgrOneIdle
      ∧ ((shutdown_vms mgrOneIdle 5 none).toOption.map
          (fun s2 => (decide (0 ∈ s2.idle_vms), (s2.store 0).state)))
        = some (true, VMState.shutdown) := by
  constructor
  · intro v hv
    have hv0 : v = 0 := by simpa [mgrOneIdle] using hv
    subst hv0
    rfl
  · have hsort : Finset.sort (· ≤ ·) mgrOneIdle.idle_vms = [0] :=
      Finset.sort_singleton (· ≤ ·) 0
    unfold shutdown_vms
    dsimp only
    rw [hsort]
    decide

/-- C7 (amended). Every VM in the idle index is PROVISIONED, and the
invariant is preserved by init_vm, provision_vm, reserve_vm, release_vm
and shutdown_vm (given fresh ids for init_vm); shutdown_vms however
marks the idle VMs SHUTDOWN without removing them from the idle index,
so it is excluded. -/
theorem C7_idle_invariant_preserved_by_single_vm_ops
    (s : MgrState) (hs : IdleInv s)
    (hfresh : ∀ v ∈ s.idle_vms, v < s.next_id) :
    (∀ vt, IdleInv (init_vm s vt).1)
      ∧ (∀ v t s2, provision_vm s v t = Except.ok s2 → IdleInv s2)
      ∧ (∀ v task s2, reserve_vm s v task = Except.ok s2 → IdleInv s2)
      ∧ (∀ v s2, release_vm s v = Except.ok s2 → IdleInv s2)
      ∧ (∀ t v s2, shutdown_vm s t v = Except.ok s2 → IdleInv s2) := by
  refine ⟨?_, ?_, ?_, ?_, ?_⟩
  · intro vt w hw
    have hw2 : w ∈ s.idle_vms := by simpa [init_vm] using hw
    have hne : w ≠ s.next_id := Nat.ne_of_lt (hfresh w hw2)
    simp only [init_vm]
    rw [Function.update_noteq hne]
    exact hs w hw2
  · intro v t s2 h w hw
    unfold provision_vm at h
    split at h
    · cases h
      dsimp only at hw ⊢
      simp only [Finset.mem_insert] at hw
      by_cases hvw : w = v
      · subst hvw
        rw [Function.update_same]
      · rw [Function.update_noteq hvw]
        rcases hw with hw | hw
        · exact absurd hw hvw
        · exact hs w hw
    · cases h
  · intro v task s2 h
    unfold reserve_vm at h
    split at h
    · cases h
    · cases h
  · intro v s2 h w hw
    unfold release_vm at h
    split at h
    · split at h
      · cases h
        dsimp only at hw ⊢
        simp only [Finset.mem_insert] at hw
        by_cases hvw : w = v
        · subst hvw
          rw [Function.update_same]
        · rw [Function.update_noteq hvw]
          rcases hw with hw | hw
          · exact absurd hw hvw
          · exact hs w hw
      · cases h
    · cases h
  · intro t v s2 h w hw
    unfold shutdown_vm at h
    split at h
    · cases h
      dsimp only at hw ⊢
      simp only [Finset.mem_erase] at hw
      rw [Function.update_noteq hw.1]
      exact hs w hw.2
    · cases h

/-- Witness for C7 (amended) on a concrete one-VM idle state. -/
theorem C7_idle_invariant_preserved_by_single_vm_ops_witness :
    IdleInv mgrOneIdle
      ∧ (∀ v ∈ mgrOneIdle.idle_vms, v < mgrOneIdle.next_id)
      ∧ IdleInv (init_vm mgrOneIdle vmTypeS6).1 := by
  have hs : IdleInv mgrOneIdle := by
    intro v hv
    have hv0 : v = 0 := by simpa [mgrOneIdle] using hv
    subst hv0
    rfl
  have hfresh : ∀ v ∈ mgrOneIdle.idle_vms, v < mgrOneIdle.next_id := by
    intro v hv
    have hv0 : v = 0 := by simpa [mgrOneIdle] using hv
    subst hv0
    decide
  exact ⟨hs, hfresh,
    (C7_idle_invariant_preserved_by_single_vm_ops mgrOneIdle hs hfresh).1
      vmTypeS6⟩

/-- C8. release_vm on a BUSY VM does return it to PROVISIONED and to the
idle index, but last_release_time stays None (no code path ever assigns
it), contradicting the claim that it equals the release time and is not
None - release_vm does not even receive the current time. -/
theorem C8_release_vm_never_sets_last_release_time :
    ((release_vm mgrOneBusy 0).toOption.map
        (fun s2 => ((s2.store 0).state, decide (0 ∈ s2.idle_vms),
          (s2.store 0).last_release_time)))
      = some (VMState.provisioned, true, none) := by
  decide

/-- Under a price-sorted catalog, the first entry satisfying a predicate
has minimal price among all satisfying entries. -/
theorem find_first_is_cheapest {p : VMType → Bool} :
    ∀ l : List VMType, l.Sorted (fun a b => a.price ≤ b.price) →
      ∀ vt, l.find? p = some vt →
        ∀ u ∈ l, p u = true → vt.price ≤ u.price := by
  intro l
  induction l with
  | nil =>
    intro _ vt h
    cases h
  | cons a l ih =>
    intro hs vt hf u hu hp
    rcases List.sorted_cons.mp hs with ⟨ha, hl⟩
    by_cases hpa : p a = true
    · rw [List.find?_cons_of_pos _ hpa] at hf
      cases hf
      rcases List.mem_cons.mp hu with rfl | hu
      · exact le_refl _
      · exact ha u hu
    · rw [List.find?_cons_of_neg _ (by simpa using hpa)] at hf
      rcases List.mem_cons.mp hu with rfl | hu
      · exact absurd hp hpa
      · exact ih hl vt hf u hu hp

/-- The io_and_runtime estimate for the 100 s file-free task on slowT. -/
theorem execC4_slowT_eq : execC4 slowT = 100 := by
  norm_num [execC4, io_and_runtime, io_consumption, taskRt100, slowT,
    storageDefault]

/-- The io_and_runtime estimate for the 100 s file-free task on fastT. -/
theorem execC4_fastT_eq : execC4 fastT = 50 := by
  norm_num [execC4, io_and_runtime, io_consumption, taskRt100, fastT,
    storageDefault]

/-- C4 counterexample. EPSM per-task cheapest-VM-type selection is
strict, not inclusive: with catalog [slowT, fastT], a 100 s task, no
provisioning delays, current_time 0 and task deadline 100, slowT
finishes exactly at the deadline (so the claim's inclusive comparison
would accept it first), yet the code rejects it and returns fastT. -/
theorem C4_per_task_selection_rejects_exact_deadline :
    find_cheapest_vm_type_for_task execC4 [slowT, fastT] 0 100
        = some fastT
      ∧ (0 : ℚ) + execC4 slowT ≤ 100
      ∧ (0 : ℚ) + execC4 slowT = 100
      ∧ fastT ≠ slowT := by
  have h1 : ¬((0 : ℚ) + execC4 slowT < 100) := by
    rw [execC4_slowT_eq]; norm_num
  have h2 : (0 : ℚ) + execC4 fastT < 100 := by
    rw [execC4_fastT_eq]; norm_num
  refine ⟨?_, ?_, ?_, ?_⟩
  · unfold find_cheapest_vm_type_for_task
    rw [List.find?_cons_of_neg _ (by simpa using h1),
      List.find?_cons_of_pos _ (by simpa using h2)]
  · rw [execC4_slowT_eq]; norm_num
  · rw [execC4_slowT_eq]; norm_num
  · intro h
    have hn := congrArg VMType.name h
    simp [slowT, fastT] at hn

/-- C4 (amended). EPSM preprocessing raises if and only if no VM type in
the catalog yields current_time + makespan ≤ deadline (inclusive), and
otherwise accepts a type with that property that is cheapest among all
qualifying types (the catalog being price-sorted); however, per-task
cheapest-VM-type selection compares STRICTLY, returning the first type
with current_time + exec_time < deadline and falling back to the last
(fastest) type, so a type finishing exactly on the task deadline is not
accepted there. -/
theorem C4_epsm_inclusive_preprocessing_strict_per_task
    (predict : DagTask → VMType → ℚ) (exec : VMType → ℚ)
    (tasks : List DagTask) (vmTypes : List VMType) (ct dl : ℚ)
    (hsorted : vmTypes.Sorted (fun a b => a.price ≤ b.price)) :
    ((∃ msg, calculate_efts_and_makespan predict tasks vmTypes ct dl
        = Except.error msg)
      ↔ ∀ vt ∈ vmTypes,
          ¬(ct + calcMakespan (fun t => predict t vt) tasks ≤ dl))
    ∧ (∀ vt, calculate_efts_and_makespan predict tasks vmTypes ct dl
          = Except.ok vt →
        (ct + calcMakespan (fun t => predict t vt) tasks ≤ dl)
          ∧ ∀ u ∈ vmTypes,
              (ct + calcMakespan (fun t => predict t u) tasks ≤ dl) →
                vt.price ≤ u.price)
    ∧ (∀ vt, find_cheapest_vm_type_for_task exec vmTypes ct dl = some vt →
        (ct + exec vt < dl)
          ∨ (vmTypes.getLast? = some vt
              ∧ ∀ u ∈ vmTypes, ¬(ct + exec u < dl))) := by
  refine ⟨?_, ?_, ?_⟩
  · unfold calculate_efts_and_makespan
    cases hf : vmTypes.find? (fun vt =>
        ct + calcMakespan (fun t => predict t vt) tasks ≤ dl) with
    | none =>
      simp only [hf]
      constructor
      · intro _ vt hvt
        have := List.find?_eq_none.mp hf vt hvt
        simpa using this
      · intro _
        exact ⟨"Bad deadline for workflow", rfl⟩
    | some vt =>
      simp only [hf]
      constructor
      · rintro ⟨msg, hmsg⟩
        cases hmsg
      · intro hall
        have hmem := List.mem_of_find?_eq_some hf
        have hp := List.find?_some hf
        exact absurd (by simpa using hp) (hall vt hmem)
  · intro vt h
    unfold calculate_efts_and_makespan at h
    cases hf : vmTypes.find? (fun vt =>
        ct + calcMakespan (fun t => predict t vt) tasks ≤ dl) with
    | none =>
      rw [hf] at h
      cases h
    | some vt0 =>
      rw [hf] at h
      injection h with hvv
      subst hvv
      refine ⟨by simpa using List.find?_some hf, ?_⟩
      intro u hu hfeas
      exact find_first_is_cheapest vmTypes hsorted vt0 hf u hu
        (by simpa using hfeas)
  · intro vt h
    unfold find_cheapest_vm_type_for_task at h
    cases hf : vmTypes.find? (fun u => ct + exec u < dl) with
    | none =>
      rw [hf] at h
      refine Or.inr ⟨h, ?_⟩
      intro u hu
      have := List.find?_eq_none.mp hf u hu
      simpa using this
    | some vt0 =>
      rw [hf] at h
      cases h
      exact Or.inl (by simpa using List.find?_some hf)

/-- Witness for C4 (amended): a sorted two-type catalog and the per-task
selection at deadline 200, where slowT fits strictly and is returned. -/
theorem C4_epsm_inclusive_preprocessing_strict_per_task_witness :
    (0 : ℚ) + execC4 slowT < 200
      ∨ (([slowT, fastT].getLast? = some slowT)
          ∧ ∀ u ∈ [slowT, fastT], ¬((0 : ℚ) + execC4 u < 200)) :=
  (C4_epsm_inclusive_preprocessing_strict_per_task
      (fun _ vt => execC4 vt) execC4 [⟨0, []⟩] [slowT, fastT] 0 200
      (by norm_num [List.sorted_cons, slowT, fastT])).2.2
    slowT
    (by
      have h1 : (0 : ℚ) + execC4 slowT < 200 := by
        rw [execC4_slowT_eq]; norm_num
      unfold find_cheapest_vm_type_for_task
      rw [List.find?_cons_of_pos _ (by simpa using h1)])

/-- Predicted execution times of the four C5 tasks on slowT. -/
theorem predC5_eval :
    predC5 0 = 10 ∧ predC5 1 = 20 ∧ predC5 2 = 30 ∧ predC5 3 = 40 := by
  refine ⟨?_, ?_, ?_, ?_⟩ <;>
    norm_num [predC5, io_and_runtime, io_consumption, pTaskC5, rtC5, slowT,
      storageDefault]

/-- Every C5 prediction is positive. -/
theorem predC5_pos (tid : ℕ) : 0 < predC5 tid := by
  have hrw : predC5 tid = rtC5 tid := by
    norm_num [predC5, io_and_runtime, io_consumption, pTaskC5, slowT,
      storageDefault]
  rw [hrw]
  unfold rtC5
  by_cases h0 : tid = 0
  · norm_num [h0]
  · by_cases h1 : tid = 1
    · norm_num [h0, h1]
    · by_cases h2 : tid = 2
      · norm_num [h0, h1, h2]
      · norm_num [h0, h1, h2]

/-- In the C5 one-type catalog, any budget of at least 1 buys slowT at
price 1 (the estimated price is the per-period price). -/
theorem findFC5_eval (tid : ℕ) (b : ℚ) (hb : 1 ≤ b) :
    findFC5 tid b = some (1, slowT) := by
  have hio : io_and_runtime (pTaskC5 tid) slowT storageDefault none 0 0
      = predC5 tid := rfl
  have hp : estimate_price_for_vm_type
      (io_and_runtime (pTaskC5 tid) slowT storageDefault none 0 0) slowT
      = 1 := by
    rw [hio, estimate_price_for_vm_type_of_pos _ _ (predC5_pos tid)
      (by norm_num [slowT])]
    norm_num [slowT]
  unfold findFC5 find_fastest_vm_type_within_budget sortDescPrice
  simp only [List.foldl_cons, List.foldl_nil, insertDescPrice]
  simp [List.findSome?_cons, hp, hb]

/-- Level sets the code builds for the C5 DAG: task 3 is reachable from
root 0 at distance 1 and from root 1 at distance 2, so it appears in two
level sets. -/
theorem levelsC5_eval :
    allocate_levels nodesC5 edgesC5 0 = [1, 0]
      ∧ allocate_levels nodesC5 edgesC5 1 = [2, 3]
      ∧ allocate_levels nodesC5 edgesC5 2 = [3]
      ∧ allocate_levels nodesC5 edgesC5 3 = []
      ∧ allocate_levels nodesC5 edgesC5 4 = [] := by
  refine ⟨by decide, by decide, by decide, by decide, by decide⟩

/-- EFTs of the C5 tasks on the slowest type. -/
theorem eftC5_eval :
    eftC5 0 = 10 ∧ eftC5 1 = 20 ∧ eftC5 2 = 50 ∧ eftC5 3 = 90 := by
  have hp := predC5_eval
  refine ⟨?_, ?_, ?_, ?_⟩ <;>
    norm_num [eftC5, calcEftsMap, tasksC5, maxParentEft,
      Function.update_apply, hp.1, hp.2.1, hp.2.2.1, hp.2.2.2, max_def]

/-- The EEOQ of the C5 workflow lists task 3 twice. -/
theorem eeoqC5_eval : eeoqC5 = [0, 1, 2, 3, 3] := by
  obtain ⟨hl0, hl1, hl2, hl3, hl4⟩ := levelsC5_eval
  obtain ⟨he0, he1, he2, he3⟩ := eftC5_eval
  have hrange : List.range (nodesC5.length + 1) = [0, 1, 2, 3, 4] := by
    decide
  unfold eeoqC5 fill_eeoq
  rw [hrange]
  simp only [List.foldl_cons, List.foldl_nil, hl0, hl1, hl2, hl3, hl4,
    sortByEft]
  norm_num [insertAscEft, he0, he1, he2, he3]

/-- Unfolding lemma: distributing over an empty queue returns the
budgets and the remaining budget unchanged. -/
theorem distribute_budget_nil_eq (findF : ℕ → ℚ → Option (ℚ × VMType))
    (states : ℕ → TaskState) (budgets : ℕ → ℚ) (B : ℚ) :
    distribute_budget findF states [] budgets B = (budgets, B) := by
  simp [distribute_budget]

/-- Unfolding lemma: one FFTD step on an unscheduled head task whose
fastest affordable type costs p. -/
theorem distribute_budget_step {findF : ℕ → ℚ → Option (ℚ × VMType)}
    {states : ℕ → TaskState} {tid : ℕ} {rest : List ℕ}
    {budgets : ℕ → ℚ} {B p : ℚ} {vt : VMType}
    (hB : 0 < B)
    (hcr : ¬(states tid = TaskState.scheduled
        ∨ states tid = TaskState.finished))
    (hf : findF tid B = some (p, vt)) :
    distribute_budget findF states (tid :: rest) budgets B
      = distribute_budget findF states rest
          (Function.update budgets tid p) (B - p) := by
  rw [distribute_budget]
  rw [if_pos hB, if_neg hcr, hf]

/-- The budget assignments FFTD makes on the C5 workflow with budget 10:
five EEOQ entries each get price 1 and the spare budget is 5. -/
theorem distC5_eval :
    distC5.1 0 = 1 ∧ distC5.1 1 = 1 ∧ distC5.1 2 = 1 ∧ distC5.1 3 = 1
      ∧ distC5.2 = 5 := by
  have h0 := findFC5_eval 0 10 (by norm_num)
  have h1 := findFC5_eval 1 9 (by norm_num)
  have h2 := findFC5_eval 2 8 (by norm_num)
  have h3 := findFC5_eval 3 7 (by norm_num)
  have h4 := findFC5_eval 3 6 (by norm_num)
  have hcr : ∀ tid : ℕ,
      ¬((fun _ : ℕ => TaskState.created) tid = TaskState.scheduled
        ∨ (fun _ : ℕ => TaskState.created) tid = TaskState.finished) := by
    intro tid
    simp
  refine ⟨?_, ?_, ?_, ?_, ?_⟩ <;>
    · unfold distC5
      rw [eeoqC5_eval]
      rw [distribute_budget_step (by norm_num) (hcr 0) h0,
        show (10 : ℚ) - 1 = 9 from by norm_num]
      rw [distribute_budget_step (by norm_num) (hcr 1) h1,
        show (9 : ℚ) - 1 = 8 from by norm_num]
      rw [distribute_budget_step (by norm_num) (hcr 2) h2,
        show (8 : ℚ) - 1 = 7 from by norm_num]
      rw [distribute_budget_step (by norm_num) (hcr 3) h3,
        show (7 : ℚ) - 1 = 6 from by norm_num]
      rw [distribute_budget_step (by norm_num) (hcr 3) h4,
        show (6 : ℚ) - 1 = 5 from by norm_num]
      rw [distribute_budget_nil_eq]
      try norm_num [Function.update_apply]

/-- C5 counterexample. For the C5 workflow (two roots, task 3 at
shortest-path distance 1 from one root and 2 from the other), the EEOQ
lists task 3 twice; FFTD with budget 10 then deducts a price for both
occurrences, and the final task budgets (1 each) plus the spare budget
(5) sum to 9, not the submitted 10. -/
theorem C5_budget_sum_leaks_on_duplicate_eeoq :
    eeoqC5 = [0, 1, 2, 3, 3]
      ∧ (∑ t in Finset.range 4, distC5.1 t) + distC5.2 = 9
      ∧ (9 : ℚ) ≠ 10 := by
  obtain ⟨hb0, hb1, hb2, hb3, hsp⟩ := distC5_eval
  refine ⟨eeoqC5_eval, ?_, by norm_num⟩
  rw [Finset.sum_range_succ, Finset.sum_range_succ, Finset.sum_range_succ,
    Finset.sum_range_succ, Finset.sum_range_zero, hb0, hb1, hb2, hb3, hsp]
  norm_num

/-- FFTD preserves budget mass over a duplicate-free queue: starting
from budgets that are zero on the queue, the final budgets sum (over any
superset of the queue) plus the spare equals the initial sum plus the
distributed budget, and ids outside the queue keep their budgets. -/
theorem distribute_budget_sum_invariant
    (findF : ℕ → ℚ → Option (ℚ × VMType)) (states : ℕ → TaskState) :
    ∀ (eeoq : List ℕ) (b0 : ℕ → ℚ) (B : ℚ) (S : Finset ℕ),
      eeoq.Nodup → (∀ t ∈ eeoq, t ∈ S) → (∀ t ∈ eeoq, b0 t = 0) →
      ((∑ t in S, (distribute_budget findF states eeoq b0 B).1 t)
          + (distribute_budget findF states eeoq b0 B).2
        = (∑ t in S, b0 t) + B)
      ∧ ∀ t, t ∉ eeoq →
          (distribute_budget findF states eeoq b0 B).1 t = b0 t := by
  intro eeoq
  induction eeoq with
  | nil =>
    intro b0 B S _ _ _
    constructor
    · simp [distribute_budget]
    · intro t _
      simp [distribute_budget]
  | cons tid rest ih =>
    intro b0 B S hnd hsub hz
    rcases List.nodup_cons.mp hnd with ⟨htid, hrest⟩
    by_cases hB : 0 < B
    · by_cases hskip : states tid = TaskState.scheduled
          ∨ states tid = TaskState.finished
      · have hstep : distribute_budget findF states (tid :: rest) b0 B
            = distribute_budget findF states rest b0 B := by
          rw [distribute_budget]
          rw [if_pos hB, if_pos hskip]
        rw [hstep]
        have hres := ih b0 B S hrest
          (fun t ht => hsub t (List.mem_cons_of_mem _ ht))
          (fun t ht => hz t (List.mem_cons_of_mem _ ht))
        exact ⟨hres.1, fun t ht =>
          hres.2 t (fun hc => ht (List.mem_cons_of_mem _ hc))⟩
      · set tb := (match findF tid B with
          | none => B
          | some (p, _) => p) with htb
        have hstep : distribute_budget findF states (tid :: rest) b0 B
            = distribute_budget findF states rest
                (Function.update b0 tid tb) (B - tb) := by
          rw [distribute_budget]
          rw [if_pos hB, if_neg hskip]
        rw [hstep]
        have hz2 : ∀ t ∈ rest, Function.update b0 tid tb t = 0 := by
          intro t ht
          have hne : t ≠ tid := fun hc => htid (hc ▸ ht)
          rw [Function.update_noteq hne]
          exact hz t (List.mem_cons_of_mem _ ht)
        have hres := ih (Function.update b0 tid tb) (B - tb) S hrest
          (fun t ht => hsub t (List.mem_cons_of_mem _ ht)) hz2
        constructor
        · rw [hres.1]
          have hmem : tid ∈ S := hsub tid (List.mem_cons_self _ _)
          rw [Finset.sum_update_of_mem hmem]
          have hsdiff : ∑ x in S \ {tid}, b0 x = ∑ x in S, b0 x := by
            rw [Finset.sum_sdiff_eq_sub
              (Finset.singleton_subset_iff.mpr hmem)]
            rw [Finset.sum_singleton, hz tid (List.mem_cons_self _ _)]
            ring
          rw [hsdiff]
          ring
        · intro t ht
          have hne : t ≠ tid := fun hc => ht (hc ▸ List.mem_cons_self _ _)
          rw [hres.2 t (fun hc => ht (List.mem_cons_of_mem _ hc))]
          exact Function.update_noteq hne _ _
    · have hstep : distribute_budget findF states (tid :: rest) b0 B
          = (b0, B) := by
        rw [distribute_budget]
        rw [if_neg hB]
      rw [hstep]
      exact ⟨rfl, fun t _ => rfl⟩

/-- C5 (amended). When the EEOQ lists each task at most once (for
example when every task has a single DAG level), FFTD budget
distribution from zero initial budgets satisfies the claim exactly: the
task budgets plus the spare budget sum to the submitted budget B, and
tasks never reached keep budget 0.  (With a duplicated EEOQ entry - a
task at two shortest-path distances from different roots - the sum falls
short of B by the budget assigned at the earlier occurrences.) -/
theorem C5_ebpsm_budget_sum_for_nodup_eeoq
    (findF : ℕ → ℚ → Option (ℚ × VMType)) (states : ℕ → TaskState)
    (eeoq : List ℕ) (B : ℚ) (S : Finset ℕ)
    (hnd : eeoq.Nodup) (hsub : ∀ t ∈ eeoq, t ∈ S) :
    ((∑ t in S, (distribute_budget findF states eeoq (fun _ => 0) B).1 t)
        + (distribute_budget findF states eeoq (fun _ => 0) B).2 = B)
      ∧ ∀ t, t ∉ eeoq →
          (distribute_budget findF states eeoq (fun _ => 0) B).1 t = 0 := by
  have h := distribute_budget_sum_invariant findF states eeoq (fun _ => 0)
    B S hnd hsub (fun _ _ => rfl)
  simpa using h

/-- Witness for C5 (amended) on a duplicate-free queue of the four C5
tasks with budget 10. -/
theorem C5_ebpsm_budget_sum_for_nodup_eeoq_witness :
    ((∑ t in Finset.range 4,
        (distribute_budget findFC5 (fun _ => TaskState.created)
          [0, 1, 2, 3] (fun _ => 0) 10).1 t)
      + (distribute_budget findFC5 (fun _ => TaskState.created)
          [0, 1, 2, 3] (fun _ => 0) 10).2 = 10)
      ∧ ∀ t, t ∉ ([0, 1, 2, 3] : List ℕ) →
          (distribute_budget findFC5 (fun _ => TaskState.created)
            [0, 1, 2, 3] (fun _ => 0) 10).1 t = 0 :=
  C5_ebpsm_budget_sum_for_nodup_eeoq findFC5 (fun _ => TaskState.created)
    [0, 1, 2, 3] 10 (Finset.range 4) (by decide) (by decide)

/-- C9. Generating neighbors mutates the input plan: with catalog
[slowT, midT, fastT] and the single-task plan [slowT] at level 0, the
loop writes midT and then fastT into the one list all plans share, so
after the call the input plan's vector is [fastT] (not the unchanged
[slowT] the claim requires) and both returned neighbors hold [fastT]
(the first neighbor should hold midT); only the levels (0 and 1 + 0)
match the claim. -/
theorem C9_neighbor_generation_mutates_input_plan :
    get_configuration_plan_neighbors [slowT, midT, fastT]
        { plan := [slowT], level := 0 }
      = some ({ plan := [fastT], level := 0 },
          [{ plan := [fastT], level := 1 }, { plan := [fastT], level := 1 }])
      ∧ ([fastT] : List VMType) ≠ [slowT]
      ∧ fastT ≠ midT := by
  refine ⟨?_, ?_, ?_⟩
  · simp [get_configuration_plan_neighbors, get_vm_types_faster_than,
      neighborsLoop, slowT, midT, fastT, List.replicate]
  · intro h
    have hn := congrArg VMType.name (List.head_eq_of_cons_eq h)
    simp [slowT, fastT] at hn
  · intro h
    have hn := congrArg VMType.name h
    simp [midT, fastT] at hn

/-- Reading a just-written index of a list. -/
theorem getD_set_eq (l : List Event) (i : ℕ) (a d : Event)
    (h : i < l.length) : (l.set i a).getD i d = a := by
  induction l generalizing i with
  | nil => simp at h
  | cons x xs ih =>
    cases i with
    | zero => rfl
    | succ n => exact ih n (Nat.lt_of_succ_lt_succ h)

/-- Reading any other index of a list after a write. -/
theorem getD_set_ne (l : List Event) (i j : ℕ) (a d : Event)
    (h : i ≠ j) : (l.set i a).getD j d = l.getD j d := by
  induction l generalizing i j with
  | nil => rfl
  | cons x xs ih =>
    cases i with
    | zero =>
      cases j with
      | zero => exact absurd rfl h
      | succ m => rfl
    | succ n =>
      cases j with
      | zero => rfl
      | succ m => exact ih n m (fun hc => h (by rw [hc]))

/-- Reading inside the left part of an appended list. -/
theorem getD_append_left (l l2 : List Event) (i : ℕ) (d : Event)
    (h : i < l.length) : (l ++ l2).getD i d = l.getD i d := by
  induction l generalizing i with
  | nil => simp at h
  | cons x xs ih =>
    cases i with
    | zero => rfl
    | succ n => exact ih n (Nat.lt_of_succ_lt_succ h)

/-- Reading below the last index survives dropLast. -/
theorem getD_dropLast (l : List Event) (i : ℕ) (d : Event)
    (h : i < l.length - 1) : l.dropLast.getD i d = l.getD i d := by
  induction l generalizing i with
  | nil => simp at h
  | cons x xs ih =>
    cases xs with
    | nil => simp at h
    | cons y t =>
      cases i with
      | zero => rfl
      | succ n =>
        have h' : n < (y :: t).length - 1 := by
          simp only [List.length_cons] at h ⊢
          omega
        exact ih n h'

/-- Event.__lt__ as a strict key comparison. -/
theorem eventLt_true_iff (a b : Event) :
    eventLt a b = true ↔ ekey a < ekey b := by
  simp [eventLt, ekey]

/-- A failed Event.__lt__ comparison reverses the key order weakly. -/
theorem eventLt_not_true_le (a b : Event) (h : ¬eventLt a b = true) :
    ekey b ≤ ekey a := by
  simp [eventLt, ekey] at h
  exact h

/-- The array parent index is strictly smaller. -/
theorem hpParent_lt (i : ℕ) (h : 0 < i) : hpParent i < i := by
  unfold hpParent
  omega

/-- In a heap-ordered array, the root holds a minimal key. -/
theorem heapInv_root_min (l : List Event) (hinv : heapInv l) :
    ∀ i, i < l.length →
      ekey (l.getD 0 default) ≤ ekey (l.getD i default) := by
  intro i
  induction i using Nat.strong_induction_on with
  | _ i ih =>
    intro hi
    rcases Nat.eq_zero_or_pos i with rfl | hpos
    · exact le_refl _
    · exact le_trans
        (ih (hpParent i) (hpParent_lt i hpos)
          (lt_trans (hpParent_lt i hpos) hi))
        (hinv i hpos hi)

/-- At pos = 0 the sift-down loop condition fails at once and newitem is
placed at the root, for any fuel. -/
theorem siftdownGo_pos_zero (newitem : Event) (fuel : ℕ)
    (heap : List Event) :
    siftdownGo newitem fuel 0 heap = heap.set 0 newitem := by
  cases fuel <;> rfl

/-- Placing newitem at a hole yields a heap, provided the edges avoiding
the hole are heap-ordered, newitem fits above the hole's children, and
the hole's parent fits above newitem. -/
theorem heapInv_place (newitem : Event) (pos : ℕ) (heap : List Event)
    (hlt : pos < heap.length)
    (hparent : 0 < pos →
      ekey (heap.getD (hpParent pos) default) ≤ ekey newitem)
    (hA : ∀ i, 0 < i → i < heap.length → i ≠ pos → hpParent i ≠ pos →
      ekey (heap.getD (hpParent i) default) ≤ ekey (heap.getD i default))
    (hB : ∀ j, 0 < j → j < heap.length → hpParent j = pos →
      ekey newitem ≤ ekey (heap.getD j default)) :
    heapInv (heap.set pos newitem) := by
  intro i hi hilen
  rw [List.length_set] at hilen
  by_cases hipos : i = pos
  · subst hipos
    rw [getD_set_eq _ _ _ _ hlt]
    have hne : i ≠ hpParent i := by
      have := hpParent_lt i hi
      omega
    rw [getD_set_ne _ _ _ _ _ hne]
    exact hparent hi
  · by_cases hpp : hpParent i = pos
    · rw [getD_set_ne _ _ _ _ _ (fun hc => hipos hc.symm)]
      rw [hpp, getD_set_eq _ _ _ _ hlt]
      exact hB i hi hilen hpp
    · rw [getD_set_ne _ _ _ _ _ (fun hc => hipos hc.symm),
        getD_set_ne _ _ _ _ _ (fun hc => hpp hc.symm)]
      exact hA i hi hilen hipos hpp

/-- Heapq's bubble-up restores the heap invariant: if the edges avoiding
pos are heap-ordered, newitem fits above pos's children, and pos's
parent fits above pos's children, then sifting newitem down from pos
yields a heap of the same length (fuel at least pos). -/
theorem siftdownGo_inv (newitem : Event) :
    ∀ (fuel pos : ℕ) (heap : List Event), pos ≤ fuel →
      pos < heap.length →
      (∀ i, 0 < i → i < heap.length → i ≠ pos → hpParent i ≠ pos →
        ekey (heap.getD (hpParent i) default)
          ≤ ekey (heap.getD i default)) →
      (∀ j, 0 < j → j < heap.length → hpParent j = pos →
        ekey newitem ≤ ekey (heap.getD j default)) →
      (0 < pos → ∀ j, 0 < j → j < heap.length → hpParent j = pos →
        ekey (heap.getD (hpParent pos) default)
          ≤ ekey (heap.getD j default)) →
      heapInv (siftdownGo newitem fuel pos heap)
        ∧ (siftdownGo newitem fuel pos heap).length = heap.length := by
  intro fuel
  induction fuel with
  | zero =>
    intro pos heap hle hlt hA hB _hC
    have h0 : pos = 0 := Nat.le_zero.mp hle
    subst h0
    rw [siftdownGo_pos_zero]
    exact ⟨heapInv_place newitem 0 heap hlt (fun h => absurd h (by omega))
      hA hB, List.length_set _ _ _⟩
  | succ fuel ih =>
    intro pos heap hle hlt hA hB hC
    cases pos with
    | zero =>
      rw [siftdownGo_pos_zero]
      exact ⟨heapInv_place newitem 0 heap hlt (fun h => absurd h (by omega))
        hA hB, List.length_set _ _ _⟩
    | succ pos0 =>
      have hpplt : hpParent (pos0 + 1) < pos0 + 1 := hpParent_lt _ (by omega)
      by_cases hcmp : eventLt newitem
          (heap.getD (hpParent (pos0 + 1)) default) = true
      · have hstep : siftdownGo newitem (fuel + 1) (pos0 + 1) heap
            = siftdownGo newitem fuel (hpParent (pos0 + 1))
                (heap.set (pos0 + 1)
                  (heap.getD (hpParent (pos0 + 1)) default)) := by
          simp only [siftdownGo]
          rw [if_pos hcmp]
        rw [hstep]
        have hA2 : ∀ i, 0 < i →
            i < (heap.set (pos0 + 1)
              (heap.getD (hpParent (pos0 + 1)) default)).length →
            i ≠ hpParent (pos0 + 1) → hpParent i ≠ hpParent (pos0 + 1) →
            ekey ((heap.set (pos0 + 1)
                (heap.getD (hpParent (pos0 + 1)) default)).getD
              (hpParent i) default)
              ≤ ekey ((heap.set (pos0 + 1)
                (heap.getD (hpParent (pos0 + 1)) default)).getD i
                default) := by
          intro i hi hilen hipp hpipp
          rw [List.length_set] at hilen
          by_cases hipos : i = pos0 + 1
          · exact absurd (by rw [hipos]) hpipp
          · by_cases hpipos : hpParent i = pos0 + 1
            · rw [hpipos, getD_set_eq _ _ _ _ hlt,
                getD_set_ne _ _ _ _ _ (fun hc => hipos hc.symm)]
              exact hC (by omega) i hi hilen hpipos
            · rw [getD_set_ne _ _ _ _ _ (fun hc => hpipos hc.symm),
                getD_set_ne _ _ _ _ _ (fun hc => hipos hc.symm)]
              exact hA i hi hilen hipos hpipos
        have hB2 : ∀ j, 0 < j →
            j < (heap.set (pos0 + 1)
              (heap.getD (hpParent (pos0 + 1)) default)).length →
            hpParent j = hpParent (pos0 + 1) →
            ekey newitem ≤ ekey ((heap.set (pos0 + 1)
              (heap.getD (hpParent (pos0 + 1)) default)).getD j
              default) := by
          intro j hj hjlen hpj
          rw [List.length_set] at hjlen
          by_cases hjpos : j = pos0 + 1
          · rw [hjpos, getD_set_eq _ _ _ _ hlt]
            exact le_of_lt ((eventLt_true_iff _ _).mp hcmp)
          · rw [getD_set_ne _ _ _ _ _ (fun hc => hjpos hc.symm)]
            have hedge : ekey (heap.getD (hpParent j) default)
                ≤ ekey (heap.getD j default) :=
              hA j hj hjlen hjpos
                (by rw [hpj]; exact Nat.ne_of_lt hpplt)
            rw [hpj] at hedge
            exact le_trans (le_of_lt ((eventLt_true_iff _ _).mp hcmp))
              hedge
        have hC2 : 0 < hpParent (pos0 + 1) → ∀ j, 0 < j →
            j < (heap.set (pos0 + 1)
              (heap.getD (hpParent (pos0 + 1)) default)).length →
            hpParent j = hpParent (pos0 + 1) →
            ekey ((heap.set (pos0 + 1)
                (heap.getD (hpParent (pos0 + 1)) default)).getD
              (hpParent (hpParent (pos0 + 1))) default)
              ≤ ekey ((heap.set (pos0 + 1)
                (heap.getD (hpParent (pos0 + 1)) default)).getD j
                default) := by
          intro hpp0 j hj hjlen hpj
          rw [List.length_set] at hjlen
          have hgp_lt : hpParent (hpParent (pos0 + 1))
              < hpParent (pos0 + 1) := hpParent_lt _ hpp0
          rw [getD_set_ne _ _ _ _ _
            (by omega : pos0 + 1 ≠ hpParent (hpParent (pos0 + 1)))]
          have h1 : ekey (heap.getD (hpParent (hpParent (pos0 + 1)))
              default) ≤ ekey (heap.getD (hpParent (pos0 + 1)) default) :=
            hA (hpParent (pos0 + 1)) hpp0 (by omega) (by omega) (by omega)
          by_cases hjpos : j = pos0 + 1
          · rw [hjpos, getD_set_eq _ _ _ _ hlt]
            exact h1
          · rw [getD_set_ne _ _ _ _ _ (fun hc => hjpos hc.symm)]
            have h2 : ekey (heap.getD (hpParent (pos0 + 1)) default)
                ≤ ekey (heap.getD j default) := by
              have h3 := hA j hj hjlen hjpos (by rw [hpj]; omega)
              rwa [hpj] at h3
            exact le_trans h1 h2
        have hres := ih (hpParent (pos0 + 1))
          (heap.set (pos0 + 1) (heap.getD (hpParent (pos0 + 1)) default))
          (by omega) (by rw [List.length_set]; omega) hA2 hB2 hC2
        exact ⟨hres.1, by rw [hres.2, List.length_set]⟩
      · have hstep : siftdownGo newitem (fuel + 1) (pos0 + 1) heap
            = heap.set (pos0 + 1) newitem := by
          simp only [siftdownGo]
          rw [if_neg hcmp]
        rw [hstep]
        refine ⟨heapInv_place newitem (pos0 + 1) heap hlt ?_ hA hB,
          List.length_set _ _ _⟩
        intro _
        exact eventLt_not_true_le _ _ hcmp

/-- One unfolding of the sift-up loop. -/
theorem siftupGo_succ_unfold (endpos : ℕ) (newitem : Event)
    (fuel pos : ℕ) (heap : List Event) :
    siftupGo endpos newitem (fuel + 1) pos heap
      = if 2 * pos + 1 < endpos then
          siftupGo endpos newitem fuel
            (if 2 * pos + 2 < endpos
                ∧ eventLt (heap.getD (2 * pos + 1) default)
                    (heap.getD (2 * pos + 2) default) = false
              then 2 * pos + 2 else 2 * pos + 1)
            (heap.set pos (heap.getD
              (if 2 * pos + 2 < endpos
                  ∧ eventLt (heap.getD (2 * pos + 1) default)
                      (heap.getD (2 * pos + 2) default) = false
                then 2 * pos + 2 else 2 * pos + 1) default))
        else siftdownGo newitem pos pos heap := rfl

/-- Moving the smaller child c of the hole pos up re-establishes the
sift-up loop hypotheses at the new hole c. -/
theorem siftup_step_hyps (endpos pos c : ℕ) (heap : List Event)
    (hend : endpos = heap.length)
    (hpos : pos < heap.length)
    (hcgt : pos < c) (hcend : c < endpos)
    (hpc : hpParent c = pos)
    (hmin : ∀ j, 0 < j → j < heap.length → hpParent j = pos → j ≠ c →
      ekey (heap.getD c default) ≤ ekey (heap.getD j default))
    (hA2 : ∀ i, 0 < i → i < heap.length → i ≠ pos → hpParent i ≠ pos →
      ekey (heap.getD (hpParent i) default) ≤ ekey (heap.getD i default))
    (hC2 : 0 < pos → ∀ j, 0 < j → j < heap.length → hpParent j = pos →
      ekey (heap.getD (hpParent pos) default)
        ≤ ekey (heap.getD j default)) :
    (∀ i, 0 < i → i < (heap.set pos (heap.getD c default)).length →
      i ≠ c → hpParent i ≠ c →
      ekey ((heap.set pos (heap.getD c default)).getD (hpParent i) default)
        ≤ ekey ((heap.set pos (heap.getD c default)).getD i default))
    ∧ (0 < c → ∀ j, 0 < j →
        j < (heap.set pos (heap.getD c default)).length → hpParent j = c →
        ekey ((heap.set pos (heap.getD c default)).getD (hpParent c)
          default)
          ≤ ekey ((heap.set pos (heap.getD c default)).getD j default)) := by
  constructor
  · intro i hi hilen hic hpic
    rw [List.length_set] at hilen
    by_cases hipos : i = pos
    · rw [hipos, getD_set_eq _ _ _ _ hpos]
      have hplt : hpParent pos < pos := hpParent_lt pos (by omega)
      rw [getD_set_ne _ _ _ _ _ (by omega : pos ≠ hpParent pos)]
      exact hC2 (by omega) c (by omega) (by omega) hpc
    · by_cases hpipos : hpParent i = pos
      · rw [hpipos, getD_set_eq _ _ _ _ hpos,
          getD_set_ne _ _ _ _ _ (fun hc2 => hipos hc2.symm)]
        exact hmin i hi hilen hpipos hic
      · rw [getD_set_ne _ _ _ _ _ (fun hc2 => hpipos hc2.symm),
          getD_set_ne _ _ _ _ _ (fun hc2 => hipos hc2.symm)]
        exact hA2 i hi hilen hipos hpipos
  · intro _hc0 j hj hjlen hpj
    rw [List.length_set] at hjlen
    rw [hpc, getD_set_eq _ _ _ _ hpos]
    have hjgt : c < j := by
      have := hpParent_lt j hj
      omega
    rw [getD_set_ne _ _ _ _ _ (by omega : pos ≠ j)]
    have h3 := hA2 j hj hjlen (by omega) (by rw [hpj]; omega)
    rwa [hpj] at h3

/-- Heapq's sift-up restores the heap invariant: walking the root hole
down to a leaf along smaller children and bubbling newitem up yields a
heap of the same length, provided the edges avoiding the hole are
heap-ordered and the hole's parent fits above the hole's children. -/
theorem siftupGo_inv (newitem : Event) (endpos : ℕ) :
    ∀ (fuel pos : ℕ) (heap : List Event),
      endpos = heap.length → endpos - pos ≤ fuel → pos < heap.length →
      (∀ i, 0 < i → i < heap.length → i ≠ pos → hpParent i ≠ pos →
        ekey (heap.getD (hpParent i) default)
          ≤ ekey (heap.getD i default)) →
      (0 < pos → ∀ j, 0 < j → j < heap.length → hpParent j = pos →
        ekey (heap.getD (hpParent pos) default)
          ≤ ekey (heap.getD j default)) →
      heapInv (siftupGo endpos newitem fuel pos heap)
        ∧ (siftupGo endpos newitem fuel pos heap).length = heap.length := by
  intro fuel
  induction fuel with
  | zero =>
    intro pos heap hend hfuel hpos _ _
    exfalso
    omega
  | succ fuel ih =>
    intro pos heap hend hfuel hpos hA2 hC2
    rw [siftupGo_succ_unfold]
    by_cases hchild : 2 * pos + 1 < endpos
    · rw [if_pos hchild]
      by_cases hsel : 2 * pos + 2 < endpos
          ∧ eventLt (heap.getD (2 * pos + 1) default)
              (heap.getD (2 * pos + 2) default) = false
      · rw [if_pos hsel]
        have hmin : ∀ j, 0 < j → j < heap.length → hpParent j = pos →
            j ≠ 2 * pos + 2 →
            ekey (heap.getD (2 * pos + 2) default)
              ≤ ekey (heap.getD j default) := by
          intro j hj hjlen hpj hjc
          have hj1 : j = 2 * pos + 1 := by
            unfold hpParent at hpj
            omega
          subst hj1
          exact eventLt_not_true_le _ _ (by rw [hsel.2]; simp)
        have hyps := siftup_step_hyps endpos pos (2 * pos + 2) heap hend
          hpos (by omega) hsel.1 (by unfold hpParent; omega) hmin hA2 hC2
        have hres := ih (2 * pos + 2)
          (heap.set pos (heap.getD (2 * pos + 2) default))
          (by rw [List.length_set]; exact hend)
          (by omega)
          (by rw [List.length_set]; omega)
          hyps.1 hyps.2
        exact ⟨hres.1, by rw [hres.2, List.length_set]⟩
      · rw [if_neg hsel]
        have hmin : ∀ j, 0 < j → j < heap.length → hpParent j = pos →
            j ≠ 2 * pos + 1 →
            ekey (heap.getD (2 * pos + 1) default)
              ≤ ekey (heap.getD j default) := by
          intro j hj hjlen hpj hjc
          have hj2 : j = 2 * pos + 2 := by
            unfold hpParent at hpj
            omega
          subst hj2
          have h22 : 2 * pos + 2 < endpos := by omega
          have hlt2 : eventLt (heap.getD (2 * pos + 1) default)
              (heap.getD (2 * pos + 2) default) = true := by
            rcases Bool.eq_false_or_eq_true
              (eventLt (heap.getD (2 * pos + 1) default)
                (heap.getD (2 * pos + 2) default)) with ht | hf
            · exact ht
            · exact absurd ⟨h22, hf⟩ hsel
          exact le_of_lt ((eventLt_true_iff _ _).mp hlt2)
        have hyps := siftup_step_hyps endpos pos (2 * pos + 1) heap hend
          hpos (by omega) hchild (by unfold hpParent; omega) hmin hA2 hC2
        have hres := ih (2 * pos + 1)
          (heap.set pos (heap.getD (2 * pos + 1) default))
          (by rw [List.length_set]; exact hend)
          (by omega)
          (by rw [List.length_set]; omega)
          hyps.1 hyps.2
        exact ⟨hres.1, by rw [hres.2, List.length_set]⟩
    · rw [if_neg hchild]
      refine siftdownGo_inv newitem pos pos heap (le_refl _) hpos hA2 ?_ hC2
      intro j hj hjlen hpj
      exfalso
      unfold hpParent at hpj
      omega

/-- heappush preserves the heap invariant and grows the queue by one. -/
theorem heappush_heapInv (l : List Event) (e : Event) (h : heapInv l) :
    heapInv (heappush l e) ∧ (heappush l e).length = l.length + 1 := by
  unfold heappush
  have hlen : (l ++ [e]).length = l.length + 1 := by simp
  have hres := siftdownGo_inv e (l ++ [e]).length ((l ++ [e]).length - 1)
    (l ++ [e]) (by omega) (by omega) ?_ ?_ ?_
  · exact ⟨hres.1, by rw [hres.2, hlen]⟩
  · intro i hi hilen hip _hpip
    rw [hlen] at hilen
    have hil : i < l.length := by
      rw [hlen] at hip
      omega
    rw [getD_append_left _ _ _ _ hil,
      getD_append_left _ _ _ _ (lt_trans (hpParent_lt i hi) hil)]
    exact h i hi hil
  · intro j hj hjlen hpj
    exfalso
    rw [hlen] at hjlen hpj
    unfold hpParent at hpj
    omega
  · intro _ j hj hjlen hpj
    exfalso
    rw [hlen] at hjlen hpj
    unfold hpParent at hpj
    omega

/-- heappop on a heap-ordered queue returns an event with minimal key,
and the remaining queue is heap-ordered and one shorter. -/
theorem heappop_spec (l : List Event) (hinv : heapInv l)
    (e : Event) (l2 : List Event) (hp : heappop l = some (e, l2)) :
    (∀ i, i < l.length → ekey e ≤ ekey (l.getD i default))
      ∧ heapInv l2 ∧ l2.length = l.length - 1 := by
  cases l with
  | nil => cases hp
  | cons x xs =>
    cases xs with
    | nil =>
      have hp2 : e = x ∧ l2 = [] := by
        simpa [heappop] using hp.symm
      obtain ⟨rfl, rfl⟩ := hp2
      refine ⟨?_, ?_, by simp⟩
      · intro i hi
        simp only [List.length_cons, List.length_nil] at hi
        interval_cases i
        · exact le_refl _
      · intro i h1 h2
        simp at h2
    | cons y t =>
      have hrest : (x :: y :: t).dropLast = x :: (y :: t).dropLast := rfl
      have hlen2 : (x :: y :: t).dropLast.length = t.length + 1 := by
        simp
      have hstep : heappop (x :: y :: t)
          = some ((x :: y :: t).dropLast.getD 0 default,
              siftupGo ((x :: y :: t).dropLast.set 0
                  ((x :: y :: t).getD ((x :: y :: t).length - 1)
                    default)).length
                ((x :: y :: t).getD ((x :: y :: t).length - 1) default)
                ((x :: y :: t).dropLast.set 0
                  ((x :: y :: t).getD ((x :: y :: t).length - 1)
                    default)).length
                0
                ((x :: y :: t).dropLast.set 0
                  ((x :: y :: t).getD ((x :: y :: t).length - 1)
                    default))) := by
        rw [heappop]
        rw [if_neg (by rw [hrest]; simp)]
      rw [hstep] at hp
      injection hp with hp2
      injection hp2 with hpe hpl
      have hroot : (x :: y :: t).dropLast.getD 0 default
          = (x :: y :: t).getD 0 default := by
        apply getD_dropLast
        simp only [List.length_cons]
        omega
      constructor
      · intro i hi
        rw [← hpe, hroot]
        exact heapInv_root_min _ hinv i hi
      · set lastelt := (x :: y :: t).getD ((x :: y :: t).length - 1)
          default with hlast
        set h2 := (x :: y :: t).dropLast.set 0 lastelt with hh2
        have hh2len : h2.length = t.length + 1 := by
          rw [hh2, List.length_set, hlen2]
        have hres := siftupGo_inv lastelt h2.length h2.length 0 h2
          rfl (by omega) (by omega) ?_ ?_
        · constructor
          · rw [← hpl]
            exact hres.1
          · rw [← hpl, hres.2, hh2len]
            simp only [List.length_cons]
            omega
        · intro i hi hilen hip _hpip
          have hi' : i < (x :: y :: t).length - 1 := by
            rw [hh2len] at hilen
            simp only [List.length_cons]
            omega
          have hpi' : hpParent i < (x :: y :: t).length - 1 :=
            lt_trans (hpParent_lt i hi) hi'
          rw [hh2]
          rw [getD_set_ne _ _ _ _ _ (fun hc => hip hc.symm),
            getD_set_ne _ _ _ _ _
              (by
                have := hpParent_lt i hi
                omega : (0 : ℕ) ≠ hpParent i)]
          rw [getD_dropLast _ _ _ hi', getD_dropLast _ _ _ hpi']
          exact hinv i hi (by simp only [List.length_cons] at hi' ⊢; omega)
        · intro h0
          exact absurd h0 (lt_irrefl 0)

/-- Every queue reachable through heappush and heappop is heap-ordered. -/
theorem reachable_heapInv (l : List Event) (hr : ReachableHeap l) :
    heapInv l := by
  induction hr with
  | empty =>
    intro i h1 h2
    simp at h2
  | push l e _ ih => exact (heappush_heapInv l e ih).1
  | pop l e l2 _ hp ih => exact (heappop_spec l ih e l2 hp).2.1

/-- C6 counterexample. Events evA and evB share start_time 1 (evA
pushed first), evC has start_time 0; after the three pushes the queue
pops evC, then evB, then evA - the later-inserted evB is dispatched
before evA, so ties are NOT broken by insertion order. -/
theorem C6_equal_time_events_pop_out_of_insertion_order :
    heappush (heappush (heappush [] evA) evB) evC = [evC, evB, evA]
      ∧ heappop [evC, evB, evA] = some (evC, [evB, evA])
      ∧ heappop [evB, evA] = some (evB, [evA])
      ∧ heappop [evA] = some (evA, [])
      ∧ evA.start_time = evB.start_time
      ∧ evA ≠ evB := by
  refine ⟨by decide, by decide, by decide, by decide, by decide, by decide⟩

/-- C6 (amended). The queue orders events by start_time alone
(Event.__lt__ has no insertion-sequence tie-break), so equal-time events
may dispatch out of insertion order; what the heap does guarantee is
that every dispatched event carries a minimal start_time among the
queued events: on any queue reachable through heappush and heappop, a
successful heappop returns an event whose start_time is at most that of
every queued event, and the remaining queue is again reachable. -/
theorem C6_heappop_returns_minimal_start_time (l : List Event)
    (e : Event) (l2 : List Event)
    (hr : ReachableHeap l) (hp : heappop l = some (e, l2)) :
    (∀ i, i < l.length → ekey e ≤ ekey (l.getD i default))
      ∧ ReachableHeap l2 :=
  ⟨(heappop_spec l (reachable_heapInv l hr) e l2 hp).1,
    ReachableHeap.pop l e l2 hr hp⟩

/-- Witness for C6 (amended): popping the one-event queue built by a
single push returns that event, minimal among the queued events. -/
theorem C6_heappop_returns_minimal_start_time_witness :
    (∀ i, i < (heappush [] evA).length →
      ekey evA ≤ ekey ((heappush [] evA).getD i default))
      ∧ ReachableHeap [] :=
  C6_heappop_returns_minimal_start_time (heappush [] evA) evA []
    (ReachableHeap.push [] evA ReachableHeap.empty) (by decide)

end CloudSim
